import Mathlib

/-!
Verification of the CASPaxos consensus core of `durable-utils`
(`src/experimental/consensus` and its Durable-Object variant).

The TypeScript source is embedded shallowly:
* JS strings are lists of characters (`JStr`), JS numbers restricted to the
  non-negative integer ballots the code manipulates are `Nat`.
* The durable storage behind the acceptor, the proposer cache and the node
  topology are explicit association lists.
* The asynchronous quorum race (`waitFor`) is a fold of a step function over
  the arrival order of the replica responses.
* Proposer rounds are parameterized by the phase outcomes observed on the
  network (quorum reached together with the conflicts contained in the
  observed responses, or an insufficient quorum with those conflicts).
-/

set_option maxHeartbeats 1000000

namespace DurableUtils

/-- A JS string, modelled as its list of code units. -/
abbrev JStr := List Char

/-- The JS comparison `a < b` on strings: lexicographic on code units.  Used
by `BallotNumberUtils.compareTo` through the `<`/`>` operators. -/
def jstrLt : JStr → JStr → Bool
  | [], [] => false
  | [], _ :: _ => true
  | _ :: _, [] => false
  | a :: as, b :: bs => if a < b then true else if b < a then false else jstrLt as bs

/-- The `BallotNumber` value type: `{counter: number, id: string}`. -/
structure BallotNumber where
  counter : Nat
  id : JStr
deriving DecidableEq, Repr

namespace BallotNumberUtils

/-- Source `BallotNumberUtils.zero()`. -/
def zero : BallotNumber := ⟨0, []⟩

/-- Source `BallotNumberUtils.fromId(id)`. -/
def fromId (id : JStr) : BallotNumber := ⟨0, id⟩

/-- Source `BallotNumberUtils.isZero(bn)`. -/
def isZero (bn : BallotNumber) : Bool := bn.counter == 0 && bn.id == []

/-- Source `BallotNumberUtils.inc(bn)`: `bn.counter++` then returns `bn`.
The source mutates the ballot in place and returns the same object; state
updates are made explicit at each use site, and the aliasing between the
proposer's local ballot and the cache entry created by `guessValue` is
modelled by the cache entry constructor `CacheEntry.aliasLocal` below. -/
def inc (bn : BallotNumber) : BallotNumber := ⟨bn.counter + 1, bn.id⟩

/-- Source `BallotNumberUtils.next(bn)`: a fresh ballot with `counter + 1`. -/
def next (bn : BallotNumber) : BallotNumber := ⟨bn.counter + 1, bn.id⟩

/-- Source `BallotNumberUtils.fastforwardAfter(bn, tick)`:
`bn.counter = Math.max(bn.counter, tick.counter) + 1`. -/
def fastforwardAfter (bn tick : BallotNumber) : BallotNumber :=
  ⟨Nat.max bn.counter tick.counter + 1, bn.id⟩

/-- Source `BallotNumberUtils.compareTo(bn, tick)`: compare the counters, then
the ids with JS string comparison; result in `{-1, 0, 1}`. -/
def compareTo (bn tick : BallotNumber) : Int :=
  if bn.counter < tick.counter then -1
  else if bn.counter > tick.counter then 1
  else if jstrLt bn.id tick.id then -1
  else if jstrLt tick.id bn.id then 1
  else 0

/-- Decimal digit character for `d % 10`. -/
def digitChar (d : Nat) : Char :=
  match d with
  | 0 => '0' | 1 => '1' | 2 => '2' | 3 => '3' | 4 => '4'
  | 5 => '5' | 6 => '6' | 7 => '7' | 8 => '8' | _ => '9'

/-- Decimal digits of `n`, least significant first.  The first argument is
fuel; `natToChars` supplies enough of it, as proved by `valRev_digitsRev`. -/
def digitsRevAux : Nat → Nat → List Char
  | 0, _ => []
  | fuel + 1, n =>
      if n < 10 then [digitChar n] else digitChar (n % 10) :: digitsRevAux fuel (n / 10)

/-- The decimal text of a non-negative JS number, as produced by the template
literal interpolation used in `stringify`. -/
def natToChars (n : Nat) : List Char := (digitsRevAux (n + 1) n).reverse

/-- JS `parseInt`, restricted to the inputs the code produces (no sign, no
leading whitespace): the value of the longest leading digit run; `none`
models `NaN` (no leading digit). -/
def jsParseInt (s : JStr) : Option Nat :=
  let ds := s.takeWhile fun c => 48 ≤ c.toNat && c.toNat ≤ 57
  if ds.isEmpty then none
  else some (ds.foldl (fun a c => a * 10 + (c.toNat - 48)) 0)

/-- Full split of a JS string on `','` (each comma separates two fields). -/
def splitComma : JStr → List JStr
  | [] => [[]]
  | c :: rest =>
      if c = ',' then [] :: splitComma rest
      else
        match splitComma rest with
        | [] => [[c]]
        | h :: t => (c :: h) :: t

/-- Source `BallotNumberUtils.parse(txt)`:
`const [counter, id] = txt.split(",", 2); return {counter: parseInt(counter), id}`.
JS `split(sep, 2)` truncates the full split to its first two elements.
`none` models the outcomes with a `NaN` counter or an `undefined` id, which
never form a well-defined ballot. -/
def parse (txt : JStr) : Option BallotNumber :=
  match (splitComma txt).take 2 with
  | [c, i] => (jsParseInt c).map fun n => ⟨n, i⟩
  | _ => none

/-- Source `BallotNumberUtils.stringify(bn)`: the text `counter,id`. -/
def stringify (bn : BallotNumber) : JStr := natToChars bn.counter ++ ',' :: bn.id

end BallotNumberUtils

/-! ### Association-list maps

The Durable Object storage, the proposer cache (`Map`) and the topology are
string-keyed maps; all are embedded as association lists with the usual
get/set/delete operations. -/

/-- Lookup in a string-keyed association list. -/
def assocGet (l : List (String × β)) (k : String) : Option β :=
  (l.find? fun e => e.1 == k).map (·.2)

/-- Insert-or-replace in a string-keyed association list. -/
def assocSet (l : List (String × β)) (k : String) (v : β) : List (String × β) :=
  match l with
  | [] => [(k, v)]
  | e :: rest => if e.1 == k then (k, v) :: rest else e :: assocSet rest k v

/-- Removal from a string-keyed association list (`Map.delete`). -/
def assocDel (l : List (String × β)) (k : String) : List (String × β) :=
  l.filter fun e => e.1 != k

/-! ### Acceptor (`AcceptorClient` over `DurableObjectStorage`) -/

/-- The exact shape of the object literal that `AcceptorClient.prepare` and
`AcceptorClient.accept` persist with `txn.put`: fields `promisedBallot`,
`acceptedBallot` and `value` (note: `value`, not `acceptedValue`). -/
structure StoredRec (α : Type) where
  promisedBallot : BallotNumber
  acceptedBallot : BallotNumber
  value : Option α
deriving DecidableEq, Repr

/-- The acceptor's durable storage: string keys to stored records. -/
abbrev Storage (α : Type) := List (String × StoredRec α)

/-- The `KeyLocalState` read by the acceptor: `{promisedBallot,
acceptedBallot, acceptedValue}`, with `none` standing for `null`. -/
structure KeyLocalState (α : Type) where
  promisedBallot : BallotNumber
  acceptedBallot : BallotNumber
  acceptedValue : Option α
deriving DecidableEq, Repr

/-- The load both acceptor operations start with:
`await txn.get<KeyLocalState>("localstate:" + key)` with the all-zero/null
default when absent.  On a hit, the stored record (shape `StoredRec`, the
only shape the code ever puts) has no `acceptedValue` field, so the
`acceptedValue` the acceptor reads is `undefined`, modelled `none`. -/
def loadLocalState (st : Storage α) (key : String) : KeyLocalState α :=
  match assocGet st ("localstate:" ++ key) with
  | none => ⟨BallotNumberUtils.zero, BallotNumberUtils.zero, none⟩
  | some r => ⟨r.promisedBallot, r.acceptedBallot, none⟩

/-- Source `PrepareResult`: `{isPrepared: true, ballot, value}` or
`{isPrepared: false, isConflict: true, ballot}`. -/
inductive PrepareResult (α : Type) where
  | prepared (ballot : BallotNumber) (value : Option α)
  | conflict (ballot : BallotNumber)
deriving DecidableEq, Repr

/-- Source `AcceptResult`: `{isOk: true, ballot}` or
`{isOk: false, isConflict: true, ballot}`. -/
inductive AcceptResult where
  | ok (ballot : BallotNumber)
  | conflict (ballot : BallotNumber)
deriving DecidableEq, Repr

/-- Whether a prepare response has `isPrepared` set (the `cond` used by
`guessValue`'s quorum wait, and the guard of its defensive branch). -/
def PrepareResult.isPrepared : PrepareResult α → Bool
  | .prepared _ _ => true
  | .conflict _ => false

/-- The `ballot` field of a prepare response (selector passed to `max`). -/
def PrepareResult.ballotOf : PrepareResult α → BallotNumber
  | .prepared b _ => b
  | .conflict b => b

/-- Source `AcceptorClient.prepare(key, proposedBallot)`, the body of the
single storage transaction.  Note: the success branch persists with
`txn.put(key, ...)` — the bare operation key, not the `"localstate:" + key`
string the load reads — exactly as in the source. -/
def acceptorPrepare (st : Storage α) (key : String) (proposedBallot : BallotNumber) :
    PrepareResult α × Storage α :=
  let localState := loadLocalState st key
  if BallotNumberUtils.compareTo proposedBallot localState.promisedBallot ≤ 0 then
    (.conflict localState.promisedBallot, st)
  else if BallotNumberUtils.compareTo proposedBallot localState.acceptedBallot ≤ 0 then
    (.conflict localState.acceptedBallot, st)
  else
    (.prepared localState.acceptedBallot localState.acceptedValue,
      assocSet st key ⟨proposedBallot, localState.acceptedBallot, localState.acceptedValue⟩)

/-- Source `AcceptorClient.accept(key, preparedBallot, preparedValue,
nextBallot)`, the body of the single storage transaction.  The success branch
persists `acceptedBallot = preparedBallot`, `value = preparedValue` and
`promisedBallot = nextBallot` (the reserved next ballot), again with
`txn.put(key, ...)` on the bare operation key. -/
def acceptorAccept (st : Storage α) (key : String) (preparedBallot : BallotNumber)
    (preparedValue : Option α) (nextBallot : BallotNumber) : AcceptResult × Storage α :=
  let localState := loadLocalState st key
  if BallotNumberUtils.compareTo preparedBallot localState.promisedBallot < 0 then
    (.conflict localState.promisedBallot, st)
  else if BallotNumberUtils.compareTo preparedBallot localState.acceptedBallot ≤ 0 then
    (.conflict localState.acceptedBallot, st)
  else
    (.ok localState.acceptedBallot, assocSet st key ⟨nextBallot, preparedBallot, preparedValue⟩)

/-! ### The quorum race (`waitFor`)

`waitFor(promises, cond, wantedCount)` races `promises.length` asynchronous
operations.  Each operation either resolves with a response or rejects; the
run is determined by the order in which these completions are observed, so it
is embedded as a fold of one step per completion event over the arrival
list.  A resolved response is appended to `all` before `cond` is checked; a
rejection is only counted.  Once the promise is resolved (`isResolved`) every
later completion returns immediately and changes nothing. -/

/-- One completion event of one of the raced promises. -/
inductive Arrival (α : Type) where
  | value (a : α)
  | rejection
deriving DecidableEq, Repr

/-- The resolution of the `waitFor` promise: success with `[result, all]`, or
rejection with `InsufficientQuorumError(all)`. -/
inductive WRes (α : Type) where
  | ok (result all : List α)
  | insufficient (all : List α)
deriving DecidableEq, Repr

/-- The closure state of one `waitFor` call: `result`, `all`, `failed`, and
the resolution (`none` while pending). -/
structure WState (α : Type) where
  result : List α
  all : List α
  failed : Nat
  res : Option (WRes α)
deriving DecidableEq, Repr

/-- The state before any completion is observed. -/
def waitForInit : WState α := ⟨[], [], 0, none⟩

/-- One completion event of `waitFor` with `n = promises.length` and
`q = wantedCount`.  `n - failed` is computed in `Int` as in JS. -/
def waitForStep (n q : Nat) (cond : α → Bool) (s : WState α) (ar : Arrival α) : WState α :=
  if s.res.isSome then s
  else
    match ar with
    | .rejection =>
        let failed := s.failed + 1
        if (n : Int) - failed < q then ⟨s.result, s.all, failed, some (.insufficient s.all)⟩
        else ⟨s.result, s.all, failed, none⟩
    | .value a =>
        let all := s.all ++ [a]
        if cond a then
          let result := s.result ++ [a]
          if result.length == q then ⟨result, all, s.failed, some (.ok result all)⟩
          else ⟨result, all, s.failed, none⟩
        else
          let failed := s.failed + 1
          if (n : Int) - failed < q then ⟨s.result, all, failed, some (.insufficient all)⟩
          else ⟨s.result, all, failed, none⟩

/-- A whole `waitFor` run over a given arrival order. -/
def waitForRun (n q : Nat) (cond : α → Bool) (arrivals : List (Arrival α)) : WState α :=
  arrivals.foldl (waitForStep n q cond) waitForInit

/-- The responses among a list of completion events, in arrival order. -/
def arrVals : List (Arrival α) → List α
  | [] => []
  | .value a :: rest => a :: arrVals rest
  | .rejection :: rest => arrVals rest

/-- The successful responses (those passing `cond`) in arrival order. -/
def succVals (cond : α → Bool) (l : List (Arrival α)) : List α := (arrVals l).filter cond

/-- Whether a completion event counts as a failure: a rejection, or a
response failing `cond`. -/
def arrIsFail (cond : α → Bool) : Arrival α → Bool
  | .value a => !cond a
  | .rejection => true

/-- Number of failures among a list of completion events. -/
def failCount (cond : α → Bool) (l : List (Arrival α)) : Nat := l.countP (arrIsFail cond)

/-- Source helper `max(iterable, selector)`:
`iterable.reduce((acc, e) => selector(acc).compareTo(selector(e)) < 0 ? e : acc,
iterable[0])`; `none` models the `undefined` produced on an empty array. -/
def maxBySel (sel : α → BallotNumber) (l : List α) : Option α :=
  match l with
  | [] => none
  | x :: _ =>
      some (l.foldl
        (fun acc e => if BallotNumberUtils.compareTo (sel acc) (sel e) < 0 then e else acc) x)

/-! ### Proposer

`Proposer.change` drives one prepare round (unless the per-key cache already
holds a promise) followed by one accept round.  Each round's network
interaction is one `waitFor` call; a proposer round is therefore
parameterized by the *outcome* of that call: quorum reached (together with
the conflict ballots contained in the observed responses, which the `finally`
of `commitValue` processes in every case), or `InsufficientQuorumError`
(likewise with the observed conflict ballots).  For the prepare phase the
value selected from the prepared responses by `max` (verified separately on
`waitForRun`/`maxBySel`) is part of the outcome. -/

/-- The error codes of `ProposerError`. -/
inductive ProposerErrorCode where
  | concurrentRequestError
  | prepareError
  | commitError
  | updateError
deriving DecidableEq, Repr

/-- Source `ProposerError.isRetryable()`:
`code === "ConcurrentRequestError" || code === "PrepareError" || code === "CommitError"`. -/
def ProposerError.isRetryable : ProposerErrorCode → Bool
  | .concurrentRequestError => true
  | .prepareError => true
  | .commitError => true
  | .updateError => false

/-- A broadcast issued by the proposer: `prepare(key, tick)` to every prepare
node, or `accept(key, ballot, value, promise)` to every accept node.  The
ballot arguments are recorded as sent at call time. -/
inductive Sent (α : Type) where
  | prep (ballot : BallotNumber)
  | acc (ballot : BallotNumber) (value : Option α) (promise : BallotNumber)
deriving DecidableEq, Repr

/-- A proposer cache entry `[ballot, value]`.  After a fresh prepare,
`guessValue` stores the `tick` object, which *is* `this.ballot` (the source's
`inc` mutates and returns the same object): such an entry is `aliasLocal` and
reads the proposer's current local ballot at use time.  After a successful
commit, `change` stores the fresh `promise` object: such an entry is `conc`. -/
inductive CacheEntry (α : Type) where
  | aliasLocal (value : Option α)
  | conc (ballot : BallotNumber) (value : Option α)
deriving DecidableEq, Repr

/-- The mutable state of one `Proposer` instance (the lock set only matters
for overlapping calls and is omitted from these sequential-round models). -/
structure PropState (α : Type) where
  ballot : BallotNumber
  cache : List (String × CacheEntry α)
deriving DecidableEq, Repr

/-- Outcome of the prepare-phase `waitFor`:  a quorum of prepared responses
whose max-ballot value is `value`, or an insufficient quorum whose observed
responses contain the listed conflict ballots. -/
inductive PrepEnv (α : Type) where
  | ok (value : Option α)
  | insufficient (conflicts : List BallotNumber)
deriving DecidableEq, Repr

/-- Outcome of the accept-phase `waitFor`: quorum reached or not, in both
cases with the conflict ballots contained in the observed responses (the
`finally` block of `commitValue` processes them on every exit path). -/
inductive CommitEnv where
  | ok (conflicts : List BallotNumber)
  | insufficient (conflicts : List BallotNumber)
deriving DecidableEq, Repr

/-- Result of `Proposer.guessValue`: the `[ballot, value]` cache entry for the
key (read through any alias), the updated proposer state and the broadcasts
issued; or the `PrepareError` path. -/
inductive GuessResult (α : Type) where
  | ok (ballot : BallotNumber) (curr : Option α) (s : PropState α) (sent : List (Sent α))
  | prepFail (s : PropState α) (sent : List (Sent α))
deriving Repr

/-- Source `Proposer.guessValue(key)`.  On a cache miss: `tick = inc(ballot)`,
broadcast `prepare(key, tick)`; on insufficient quorum fast-forward the local
ballot past every observed conflict and fail with `PrepareError`; on success
cache `[tick, value]` (an aliased entry, see `CacheEntry`) and return it. -/
def guessValue (s : PropState α) (key : String) (env : PrepEnv α) : GuessResult α :=
  match assocGet s.cache key with
  | some (.aliasLocal v) => .ok s.ballot v s []
  | some (.conc b v) => .ok b v s []
  | none =>
      let tick := BallotNumberUtils.inc s.ballot
      match env with
      | .ok v => .ok tick v ⟨tick, assocSet s.cache key (.aliasLocal v)⟩ [.prep tick]
      | .insufficient conflicts =>
          .prepFail ⟨conflicts.foldl BallotNumberUtils.fastforwardAfter tick, s.cache⟩ [.prep tick]

/-- Whether `commitValue` returned normally or threw `CommitError`. -/
inductive CommitOutcome where
  | ok
  | fail
deriving DecidableEq, Repr

/-- Source `Proposer.commitValue(key, ballot, value, promise)`: broadcast
`accept(key, ballot, value, promise)`; in the `finally`, for every conflict
among the observed responses delete the key's cache entry and fast-forward
the local ballot; throw `CommitError` on insufficient quorum. -/
def commitValue (s : PropState α) (key : String) (ballot : BallotNumber) (value : Option α)
    (promise : BallotNumber) (env : CommitEnv) : CommitOutcome × PropState α × List (Sent α) :=
  let sent := [Sent.acc ballot value promise]
  match env with
  | .ok conflicts =>
      (.ok,
        ⟨conflicts.foldl BallotNumberUtils.fastforwardAfter s.ballot,
          if conflicts.isEmpty then s.cache else assocDel s.cache key⟩, sent)
  | .insufficient conflicts =>
      (.fail,
        ⟨conflicts.foldl BallotNumberUtils.fastforwardAfter s.ballot,
          if conflicts.isEmpty then s.cache else assocDel s.cache key⟩, sent)

/-- What one `Proposer.change` call produced: the returned value, or the
thrown `ProposerError` code. -/
inductive ChangeResult (α : Type) where
  | ok (value : Option α)
  | err (code : ProposerErrorCode)
deriving DecidableEq, Repr

/-- Source `Proposer.change(key, update)` (the lock is private to one call in
these sequential models).  `update` is applied to the guessed current value;
if it throws, the *current* value is still committed and the captured error
is re-thrown as `UpdateError` only after `commitValue` returns normally.
After a normal commit, `[promise, next]` is cached for the next round. -/
def change (s : PropState α) (key : String) (updateFn : Option α → Except Unit α)
    (penv : PrepEnv α) (cenv : CommitEnv) : ChangeResult α × PropState α × List (Sent α) :=
  match guessValue s key penv with
  | .prepFail s1 sent => (.err .prepareError, s1, sent)
  | .ok ballot curr s1 sent =>
      let upd := match updateFn curr with
        | .ok v => (some v, false)
        | .error _ => (curr, true)
      let promiseB := BallotNumberUtils.next ballot
      let out := commitValue s1 key ballot upd.1 promiseB cenv
      match out.1 with
      | .fail => (.err .commitError, out.2.1, sent ++ out.2.2)
      | .ok =>
          (if upd.2 then .err .updateError else .ok upd.1,
            ⟨out.2.1.ballot, assocSet out.2.1.cache key (.conc promiseB upd.1)⟩,
            sent ++ out.2.2)

/-- One `change` call of a round sequence: its key, update function and the
two phase outcomes observed on the network. -/
structure Round (α : Type) where
  key : String
  updateFn : Option α → Except Unit α
  penv : PrepEnv α
  cenv : CommitEnv

/-- A sequence of `change` calls on one `Proposer` instance, collecting every
broadcast issued along the way. -/
def runRounds (s : PropState α) : List (Round α) → PropState α × List (Sent α)
  | [] => (s, [])
  | r :: rest =>
      let out := change s r.key r.updateFn r.penv r.cenv
      let tail := runRounds out.2.1 rest
      (tail.1, out.2.2 ++ tail.2)

/-- The ballots of the prepare broadcasts in a list of sent broadcasts. -/
def prepBallots : List (Sent α) → List BallotNumber
  | [] => []
  | .prep b :: rest => b :: prepBallots rest
  | .acc _ _ _ :: rest => prepBallots rest

/-- The ballots of the accept broadcasts in a list of sent broadcasts. -/
def accBallots : List (Sent α) → List BallotNumber
  | [] => []
  | .prep _ :: rest => accBallots rest
  | .acc b _ _ :: rest => b :: accBallots rest

/-! ### ConsensusKV facade (`CASPaxosKV`) -/

/-- One logical replica built by `CASPaxosKV.#makeNodes`: the Durable Object
stub name `clusterName + "-" + nodeId` and the location hint it is created
with. -/
structure NodeRef where
  name : String
  location : String
deriving DecidableEq, Repr

/-- A node group `{nodes, quorum}`. -/
structure NodeGroup where
  nodes : List NodeRef
  quorum : Nat
deriving DecidableEq, Repr

/-- Insertion step for the `sort((a, b) => a[0].localeCompare(b[0]))` over
the location entries. -/
def insertByLoc (e : String × Nat) : List (String × Nat) → List (String × Nat)
  | [] => [e]
  | f :: rest =>
      if jstrLt f.1.data e.1.data then f :: insertByLoc e rest else e :: f :: rest

/-- The sorted `(location, weight)` enumeration. -/
def sortLocs (l : List (String × Nat)) : List (String × Nat) := l.foldr insertByLoc []

/-- Source `CASPaxosKV.#makeNodes()`: `totalNodes` is the sum of the
per-location weights, `quorum = floor(totalNodes / 2) + 1`; the node list
enumerates, in sorted location order, `weight` nodes per location, naming the
`idx`-th one `clusterName + "-" + idx` with a running global index.  The
constructor performs no validation of `totalNodes`. -/
def makeNodes (clusterName : String) (locations : List (String × Nat)) :
    NodeGroup × NodeGroup :=
  let totalNodes := (locations.map (·.2)).foldl (· + ·) 0
  let quorum := totalNodes / 2 + 1
  let expanded := (sortLocs locations).foldr
    (fun lw acc => ((List.range lw.2).map fun _ => lw.1) ++ acc) []
  let nodes := expanded.enum.map fun li =>
    NodeRef.mk (clusterName ++ "-" ++ toString li.1) li.2
  (⟨nodes, quorum⟩, ⟨nodes, quorum⟩)

namespace CASPaxosKV

/-- Source `CASPaxosKV.delete(key)`: the body is
`throw new Error("Method not implemented.")`. -/
def delete (_key : String) : Except String Bool :=
  .error "Method not implemented."

end CASPaxosKV

/-! ## Lemmas on ballots and their text form -/

theorem jstrLt_irrefl (l : JStr) : jstrLt l l = false := by
  induction l with
  | nil => rfl
  | cons c rest ih => simp [jstrLt, ih]

theorem compareTo_self (b : BallotNumber) : BallotNumberUtils.compareTo b b = 0 := by
  simp [BallotNumberUtils.compareTo, jstrLt_irrefl]

theorem digitChar_toNat (d : Nat) (h : d < 10) :
    (BallotNumberUtils.digitChar d).toNat = 48 + d := by
  interval_cases d <;> rfl

theorem digitsRevAux_mem (fuel : Nat) :
    ∀ n c, c ∈ BallotNumberUtils.digitsRevAux fuel n → 48 ≤ c.toNat ∧ c.toNat ≤ 57 := by
  induction fuel with
  | zero => intro n c hc; simp [BallotNumberUtils.digitsRevAux] at hc
  | succ fuel ih =>
    intro n c hc
    rw [BallotNumberUtils.digitsRevAux] at hc
    split at hc
    · next h =>
      simp only [List.mem_singleton] at hc
      subst hc
      have := digitChar_toNat n h
      omega
    · next h =>
      simp only [List.mem_cons] at hc
      rcases hc with hc | hc
      · subst hc
        have := digitChar_toNat (n % 10) (Nat.mod_lt _ (by omega))
        omega
      · exact ih _ _ hc

theorem digitsRevAux_ne_nil (fuel n : Nat) (h : 0 < fuel) :
    BallotNumberUtils.digitsRevAux fuel n ≠ [] := by
  match fuel, h with
  | fuel + 1, _ =>
    rw [BallotNumberUtils.digitsRevAux]
    split <;> simp

theorem digitsRevAux_foldr (fuel : Nat) :
    ∀ n, n < fuel →
      (BallotNumberUtils.digitsRevAux fuel n).foldr (fun c a => a * 10 + (c.toNat - 48)) 0
        = n := by
  induction fuel with
  | zero => intro n h; omega
  | succ fuel ih =>
    intro n h
    rw [BallotNumberUtils.digitsRevAux]
    split
    · next h10 =>
      simp only [List.foldr_cons, List.foldr_nil]
      have := digitChar_toNat n h10
      omega
    · next h10 =>
      have hdiv : n / 10 < n := Nat.div_lt_self (by omega) (by omega)
      simp only [List.foldr_cons]
      rw [ih (n / 10) (by omega)]
      have := digitChar_toNat (n % 10) (Nat.mod_lt _ (by omega))
      omega

theorem natToChars_mem (n : Nat) (c : Char) (hc : c ∈ BallotNumberUtils.natToChars n) :
    48 ≤ c.toNat ∧ c.toNat ≤ 57 := by
  rw [BallotNumberUtils.natToChars, List.mem_reverse] at hc
  exact digitsRevAux_mem _ _ _ hc

theorem comma_not_mem_natToChars (n : Nat) : ',' ∉ BallotNumberUtils.natToChars n := by
  intro hc
  have := natToChars_mem n ',' hc
  rw [show (',' : Char).toNat = 44 from rfl] at this
  omega

theorem natToChars_ne_nil (n : Nat) : BallotNumberUtils.natToChars n ≠ [] := by
  rw [BallotNumberUtils.natToChars]
  simpa using digitsRevAux_ne_nil (n + 1) n (by omega)

theorem takeWhile_all (p : Char → Bool) (l : List Char) (h : ∀ c ∈ l, p c = true) :
    l.takeWhile p = l := by
  induction l with
  | nil => rfl
  | cons c rest ih =>
    rw [List.takeWhile_cons, h c (by simp), ih fun x hx => h x (by simp [hx])]
    simp

theorem jsParseInt_natToChars (n : Nat) :
    BallotNumberUtils.jsParseInt (BallotNumberUtils.natToChars n) = some n := by
  rw [BallotNumberUtils.jsParseInt]
  have hall : ∀ c ∈ BallotNumberUtils.natToChars n,
      (48 ≤ c.toNat && c.toNat ≤ 57) = true := by
    intro c hc
    have := natToChars_mem n c hc
    simp [this.1, this.2]
  rw [takeWhile_all _ _ hall]
  simp only [List.isEmpty_iff]
  rw [if_neg (natToChars_ne_nil n)]
  rw [BallotNumberUtils.natToChars, List.foldl_reverse]
  rw [digitsRevAux_foldr (n + 1) n (by omega)]

theorem splitComma_no_comma (l : JStr) (h : ',' ∉ l) :
    BallotNumberUtils.splitComma l = [l] := by
  induction l with
  | nil => rfl
  | cons c rest ih =>
    rw [BallotNumberUtils.splitComma]
    rw [if_neg (by intro hc; exact h (by simp [hc]))]
    rw [ih (by intro hc; exact h (by simp [hc]))]

theorem splitComma_append (xs ys : JStr) (h : ',' ∉ xs) :
    BallotNumberUtils.splitComma (xs ++ ',' :: ys)
      = xs :: BallotNumberUtils.splitComma ys := by
  induction xs with
  | nil => simp [BallotNumberUtils.splitComma]
  | cons c rest ih =>
    rw [List.cons_append, BallotNumberUtils.splitComma]
    rw [if_neg (by intro hc; exact h (by simp [hc]))]
    rw [ih (by intro hc; exact h (by simp [hc]))]

/-! ## C1, C2, C6: facade and acceptor contradictions with the spec -/

/-- C1 (code bug): the acceptor loads each key's local state from
`"localstate:" + key` but persists under the bare `key`, so a prepare that
answered `{prepared: true}` for ballot `(1, "p")` on a fresh key leaves every
subsequent load with the all-zero state: the promise is invisible (a second
prepare with the very same ballot is granted again instead of conflicting),
and an `{ok: true}` accept is equally invisible, contradicting the claimed
`promisedBallot = b` / `acceptedBallot = b, acceptedValue = v,
promisedBallot = r` post-state. -/
theorem C1_acceptor_persistence_code_bug :
    ((acceptorPrepare ([] : Storage Nat) "k" ⟨1, ['p']⟩).1
        = PrepareResult.prepared BallotNumberUtils.zero none)
    ∧ ((acceptorPrepare ([] : Storage Nat) "k" ⟨1, ['p']⟩).2
        = [("k", ⟨⟨1, ['p']⟩, BallotNumberUtils.zero, none⟩)])
    ∧ (loadLocalState (acceptorPrepare ([] : Storage Nat) "k" ⟨1, ['p']⟩).2 "k"
        = ⟨BallotNumberUtils.zero, BallotNumberUtils.zero, none⟩)
    ∧ ((acceptorPrepare (acceptorPrepare ([] : Storage Nat) "k" ⟨1, ['p']⟩).2 "k"
          ⟨1, ['p']⟩).1
        = PrepareResult.prepared BallotNumberUtils.zero none)
    ∧ ((acceptorAccept ([] : Storage Nat) "k" ⟨1, ['p']⟩ (some 7) ⟨2, ['p']⟩).1
        = AcceptResult.ok BallotNumberUtils.zero)
    ∧ (loadLocalState
          (acceptorAccept ([] : Storage Nat) "k" ⟨1, ['p']⟩ (some 7) ⟨2, ['p']⟩).2 "k"
        = ⟨BallotNumberUtils.zero, BallotNumberUtils.zero, none⟩) := by
  decide

/-- C2 (code bug): `CASPaxosKV`'s constructor performs no topology
validation.  The topology `{eeur: 2, weur: 2}` (total weight 4, even) and the
topology `{weur: 1}` (total weight 1 < 3) both construct node groups without
any error — the repository's own tests expect a synchronous throw naming the
violated rule for exactly these two inputs. -/
theorem C2_no_topology_validation_code_bug :
    ((makeNodes "test-cluster" [("eeur", 2), ("weur", 2)]).1.nodes.length = 4)
    ∧ ((makeNodes "test-cluster" [("eeur", 2), ("weur", 2)]).1.quorum = 3)
    ∧ ((makeNodes "test-cluster" [("weur", 1)]).1.nodes.length = 1)
    ∧ ((makeNodes "test-cluster" [("weur", 1)]).1.quorum = 1) := by
  decide

/-- C6 (code bug): `CASPaxosKV.delete` does not perform
`change(key, _ => tombstoneSentinel)` and does not return `true`; its body
unconditionally throws `Error("Method not implemented.")` — contradicting the
spec and the repository's own tests (`expect(await kv.delete("foo-key-1"))
.toBe(true)`). -/
theorem C6_delete_unimplemented_code_bug :
    CASPaxosKV.delete "foo-key-1" = Except.error "Method not implemented." := rfl

/-! ## C8: serialize/deserialize roundtrip -/

/-- C8 (counterexample): for the ballot `(1, "a,b")`, whose proposer id
contains a comma, `parse(stringify(b))` is the ballot `(1, "a")` — JS
`split(",", 2)` truncates the id at the next comma — and that ballot does not
compare equal to `b`. -/
theorem C8_roundtrip_counterexample :
    BallotNumberUtils.parse (BallotNumberUtils.stringify ⟨1, ['a', ',', 'b']⟩)
        = some ⟨1, ['a']⟩
    ∧ BallotNumberUtils.compareTo ⟨1, ['a']⟩ ⟨1, ['a', ',', 'b']⟩ ≠ 0 := by
  decide

/-- C8 (amended): for every ballot whose proposer id contains no comma —
every id the repository itself generates (`crypto.randomUUID()`) is of this
form — `parse(stringify(b))` yields a ballot that compares equal
(`compareTo = 0`) to `b`. -/
theorem C8_roundtrip_of_comma_free_id (b : BallotNumber) (h : ',' ∉ b.id) :
    ∃ b', BallotNumberUtils.parse (BallotNumberUtils.stringify b) = some b'
      ∧ BallotNumberUtils.compareTo b' b = 0 := by
  refine ⟨b, ?_, compareTo_self b⟩
  rw [BallotNumberUtils.parse, BallotNumberUtils.stringify]
  rw [splitComma_append _ _ (comma_not_mem_natToChars b.counter)]
  rw [splitComma_no_comma b.id h]
  simp only [List.take]
  rw [jsParseInt_natToChars]
  rfl

/-- Witness for `C8_roundtrip_of_comma_free_id` at the ballot `(5, "p")`. -/
theorem C8_roundtrip_witness :
    ∃ b', BallotNumberUtils.parse (BallotNumberUtils.stringify ⟨5, ['p']⟩) = some b'
      ∧ BallotNumberUtils.compareTo b' ⟨5, ['p']⟩ = 0 :=
  C8_roundtrip_of_comma_free_id ⟨5, ['p']⟩ (by decide)

/-! ## Lemmas on the quorum race -/

theorem waitForRun_append (n q : Nat) (cond : α → Bool) (l l' : List (Arrival α)) :
    waitForRun n q cond (l ++ l')
      = l'.foldl (waitForStep n q cond) (waitForRun n q cond l) := by
  simp [waitForRun, List.foldl_append]

theorem waitForStep_resolved (n q : Nat) (cond : α → Bool) (s : WState α) (a : Arrival α)
    (h : s.res.isSome) : waitForStep n q cond s a = s := by
  rw [waitForStep.eq_def, if_pos h]

theorem foldl_waitForStep_resolved (n q : Nat) (cond : α → Bool) (l : List (Arrival α)) :
    ∀ s : WState α, s.res.isSome → l.foldl (waitForStep n q cond) s = s := by
  induction l with
  | nil => intro s _; rfl
  | cons a l ih =>
    intro s h
    rw [List.foldl_cons, waitForStep_resolved n q cond s a h, ih s h]

theorem waitForRun_stable (n q : Nat) (cond : α → Bool) (l l' : List (Arrival α))
    (w : WRes α) (h : (waitForRun n q cond l).res = some w) :
    waitForRun n q cond (l ++ l') = waitForRun n q cond l := by
  rw [waitForRun_append]
  exact foldl_waitForStep_resolved n q cond l' _ (by rw [h]; rfl)

theorem arrVals_append (l l' : List (Arrival α)) :
    arrVals (l ++ l') = arrVals l ++ arrVals l' := by
  induction l with
  | nil => rfl
  | cons a l ih => cases a <;> simp [arrVals, ih]

theorem succVals_append (cond : α → Bool) (l l' : List (Arrival α)) :
    succVals cond (l ++ l') = succVals cond l ++ succVals cond l' := by
  simp [succVals, arrVals_append, List.filter_append]

theorem failCount_append (cond : α → Bool) (l l' : List (Arrival α)) :
    failCount cond (l ++ l') = failCount cond l + failCount cond l' := by
  simp [failCount, List.countP_append]

/-- While the `waitFor` promise is still pending, the closure state is exactly
the successes so far, the responses observed so far and the failure count so
far. -/
theorem waitForRun_pending_eq (n q : Nat) (cond : α → Bool) (l : List (Arrival α))
    (h : (waitForRun n q cond l).res = none) :
    waitForRun n q cond l
      = ⟨succVals cond l, arrVals l, failCount cond l, none⟩ := by
  induction l using List.reverseRecOn with
  | nil => simp [waitForRun, waitForInit, succVals, arrVals, failCount]
  | append_singleton l a ih =>
    have hres : (waitForRun n q cond l).res = none := by
      cases hcase : (waitForRun n q cond l).res with
      | none => rfl
      | some w =>
        rw [waitForRun_stable n q cond l [a] w hcase] at h
        rw [h] at hcase
        exact absurd hcase (by simp)
    rw [waitForRun_append, List.foldl_cons, List.foldl_nil] at h ⊢
    rw [ih hres] at h ⊢
    rw [waitForStep.eq_def] at h ⊢
    simp only [Option.isSome_none, Bool.false_eq_true, if_false] at h ⊢
    cases a with
    | rejection =>
      simp only at h ⊢
      split at h
      · exact absurd h (by simp)
      · next hcnd =>
        rw [if_neg hcnd]
        simp [succVals_append, arrVals_append, failCount_append, succVals, arrVals,
          failCount, arrIsFail]
    | value v =>
      simp only at h ⊢
      by_cases hc : cond v
      · rw [if_pos hc] at h ⊢
        split at h
        · exact absurd h (by simp)
        · next hlen =>
          rw [if_neg hlen]
          simp [succVals_append, arrVals_append, failCount_append, succVals, arrVals,
            failCount, arrIsFail, hc]
      · rw [if_neg hc] at h ⊢
        split at h
        · exact absurd h (by simp)
        · next hcnd =>
          rw [if_neg hcnd]
          simp [succVals_append, arrVals_append, failCount_append, succVals, arrVals,
            failCount, arrIsFail, hc]

/-- Resolution with a quorum happens exactly when a response passing `cond`
arrives that makes the success count reach `q`, and it carries exactly the
first `q` successes and the responses observed so far. -/
theorem waitForRun_ok_iff (n q : Nat) (cond : α → Bool) (l : List (Arrival α))
    (a : Arrival α) (r al : List α) (h : (waitForRun n q cond l).res = none) :
    (waitForRun n q cond (l ++ [a])).res = some (.ok r al) ↔
      ∃ v, a = .value v ∧ cond v = true ∧ (succVals cond l).length + 1 = q
        ∧ r = succVals cond l ++ [v] ∧ al = arrVals l ++ [v] := by
  rw [waitForRun_append, List.foldl_cons, List.foldl_nil, waitForRun_pending_eq n q cond l h]
  rw [waitForStep.eq_def]
  simp only [Option.isSome_none, Bool.false_eq_true, if_false]
  cases a with
  | rejection =>
    simp only
    constructor
    · intro hsome
      split at hsome <;> simp_all
    · rintro ⟨v, hv, -⟩
      exact absurd hv (by simp)
  | value v =>
    simp only
    by_cases hc : cond v
    · rw [if_pos hc]
      by_cases hlen : (succVals cond l ++ [v]).length == q
      · rw [if_pos hlen]
        simp only [List.length_append, List.length_singleton, beq_iff_eq] at hlen
        simp only [Option.some_inj]
        constructor
        · intro hok
          refine ⟨v, rfl, hc, hlen, ?_⟩
          cases hok
          exact ⟨rfl, rfl⟩
        · rintro ⟨v', hv', -, -, hr, hal⟩
          cases hv'
          rw [hr, hal]
      · rw [if_neg hlen]
        simp only [beq_iff_eq, List.length_append, List.length_singleton] at hlen
        constructor
        · intro hsome; exact absurd hsome (by simp)
        · rintro ⟨v', hv', -, hq', -⟩
          cases hv'
          exact absurd hq' hlen
    · rw [if_neg hc]
      constructor
      · intro hsome
        split at hsome <;> simp_all
      · rintro ⟨v', hv', hc', -⟩
        cases hv'
        exact absurd hc' (by simp [hc])

/-- Rejection with `InsufficientQuorumError` happens exactly when a failure
arrives that leaves fewer than `q` possible successes, and it carries exactly
the responses observed so far. -/
theorem waitForRun_insufficient_iff (n q : Nat) (cond : α → Bool) (l : List (Arrival α))
    (a : Arrival α) (al : List α) (h : (waitForRun n q cond l).res = none) :
    (waitForRun n q cond (l ++ [a])).res = some (.insufficient al) ↔
      arrIsFail cond a = true ∧ (n : Int) - (failCount cond l + 1) < q
        ∧ al = arrVals (l ++ [a]) := by
  rw [waitForRun_append, List.foldl_cons, List.foldl_nil, waitForRun_pending_eq n q cond l h]
  rw [waitForStep.eq_def]
  simp only [Option.isSome_none, Bool.false_eq_true, if_false]
  cases a with
  | rejection =>
    simp only
    rw [arrVals_append]
    by_cases hcnd : (n : Int) - (failCount cond l + 1) < q
    · rw [if_pos (by exact_mod_cast hcnd)]
      simp [arrIsFail, arrVals, hcnd, eq_comm]
    · rw [if_neg (by exact_mod_cast hcnd)]
      simp [arrIsFail, arrVals, hcnd]
  | value v =>
    simp only
    rw [arrVals_append]
    by_cases hc : cond v
    · rw [if_pos hc]
      constructor
      · intro hsome
        split at hsome <;> simp_all
      · rintro ⟨hfail, -, -⟩
        simp [arrIsFail, hc] at hfail
    · rw [if_neg hc]
      by_cases hcnd : (n : Int) - (failCount cond l + 1) < q
      · rw [if_pos (by exact_mod_cast hcnd)]
        simp [arrIsFail, arrVals, hc, hcnd, eq_comm]
      · rw [if_neg (by exact_mod_cast hcnd)]
        simp [arrIsFail, arrVals, hc, hcnd]

/-- Whenever a `waitFor` run resolved with a quorum, every returned success
passes `cond` and there are exactly `q` of them. -/
theorem waitForRun_ok_props (n q : Nat) (cond : α → Bool) (l : List (Arrival α))
    (r al : List α) (h : (waitForRun n q cond l).res = some (.ok r al)) :
    (∀ x ∈ r, cond x = true) ∧ r.length = q := by
  induction l using List.reverseRecOn with
  | nil => exact absurd h (by simp [waitForRun, waitForInit])
  | append_singleton l a ih =>
    cases hcase : (waitForRun n q cond l).res with
    | some w =>
      rw [waitForRun_stable n q cond l [a] w hcase] at h
      exact ih h
    | none =>
      rcases (waitForRun_ok_iff n q cond l a r al hcase).mp h with
        ⟨v, -, hc, hq', hr, -⟩
      constructor
      · intro x hx
        rw [hr] at hx
        rcases List.mem_append.mp hx with hx | hx
        · exact List.of_mem_filter hx
        · rw [List.mem_singleton.mp hx]; exact hc
      · rw [hr]; simp [hq']

theorem foldl_pick_mem (f : α → α → α) (hf : ∀ acc e, f acc e = acc ∨ f acc e = e)
    (l : List α) : ∀ init : α, l.foldl f init = init ∨ l.foldl f init ∈ l := by
  induction l with
  | nil => intro init; left; rfl
  | cons e l ih =>
    intro init
    rw [List.foldl_cons]
    rcases ih (f init e) with h | h
    · rw [h]
      rcases hf init e with h' | h'
      · left; exact h'
      · right; rw [h']; simp
    · right; simp [h]

/-- The source `max` helper always returns an element of a non-empty array. -/
theorem maxBySel_mem (sel : α → BallotNumber) (l : List α) (m : α)
    (h : maxBySel sel l = some m) : m ∈ l := by
  match l with
  | [] => exact absurd h (by simp [maxBySel])
  | x :: xs =>
    rw [maxBySel, Option.some_inj] at h
    rcases foldl_pick_mem
        (fun acc e => if BallotNumberUtils.compareTo (sel acc) (sel e) < 0 then e else acc)
        (fun acc e => by dsimp only; split <;> simp) (x :: xs) x with h' | h'
    · rw [← h, h']; simp
    · rw [← h]; exact h'

/-! ## C4, C9, C10: the quorum race and its callers -/

/-- C4: over any total of `n` operations with success threshold `q` and any
arrival order `l ++ a :: rest` pending after `l`: (a) if `a` is the `q`-th
success, `waitFor` resolves at that moment with exactly the first `q`
successes and exactly the responses observed so far; (b) if `a` is a failure
making `n - failures < q`, it rejects at that moment with
`InsufficientQuorum` carrying the responses observed so far; (c) every
completion after resolution is discarded — the final state equals the state
at resolution; (d,e) conversely, resolution and rejection happen only at
such moments. -/
theorem C4_waitFor_quorum_race (cond : α → Bool) (n q : Nat) (hq : 1 ≤ q)
    (l : List (Arrival α)) (a : Arrival α) (rest : List (Arrival α))
    (hn : n = (l ++ a :: rest).length)
    (hpending : (waitForRun n q cond l).res = none) :
    (∀ v, a = .value v → cond v = true → (succVals cond l).length + 1 = q →
        waitForRun n q cond (l ++ a :: rest)
          = ⟨succVals cond l ++ [v], arrVals l ++ [v], failCount cond l,
              some (.ok (succVals cond l ++ [v]) (arrVals l ++ [v]))⟩)
    ∧ (arrIsFail cond a = true → (n : Int) - (failCount cond l + 1) < q →
        (waitForRun n q cond (l ++ a :: rest)).res
          = some (.insufficient (arrVals (l ++ [a]))))
    ∧ (∀ w, (waitForRun n q cond (l ++ [a])).res = some w →
        waitForRun n q cond (l ++ a :: rest) = waitForRun n q cond (l ++ [a]))
    ∧ (∀ r al, (waitForRun n q cond (l ++ [a])).res = some (.ok r al) →
        ∃ v, a = .value v ∧ cond v = true ∧ (succVals cond l).length + 1 = q
          ∧ r = succVals cond l ++ [v] ∧ al = arrVals l ++ [v])
    ∧ (∀ al, (waitForRun n q cond (l ++ [a])).res = some (.insufficient al) →
        arrIsFail cond a = true ∧ (n : Int) - (failCount cond l + 1) < q
          ∧ al = arrVals (l ++ [a])) := by
  have hsplit : l ++ a :: rest = (l ++ [a]) ++ rest := by
    rw [List.append_assoc]
    rfl
  have hstep : waitForRun n q cond (l ++ [a])
      = waitForStep n q cond (waitForRun n q cond l) a := by
    rw [waitForRun_append, List.foldl_cons, List.foldl_nil]
  refine ⟨?_, ?_, ?_, ?_, ?_⟩
  · intro v hv hc hlen
    subst hv
    have hok : (waitForRun n q cond (l ++ [.value v])).res
        = some (.ok (succVals cond l ++ [v]) (arrVals l ++ [v])) := by
      rw [waitForRun_ok_iff n q cond l (.value v) _ _ hpending]
      exact ⟨v, rfl, hc, hlen, rfl, rfl⟩
    rw [hsplit, waitForRun_stable n q cond (l ++ [Arrival.value v]) rest
      (.ok (succVals cond l ++ [v]) (arrVals l ++ [v])) hok]
    rw [hstep, waitForRun_pending_eq n q cond l hpending, waitForStep.eq_def]
    simp only [Option.isSome_none, Bool.false_eq_true, if_false]
    rw [if_pos hc]
    rw [if_pos (by simp [← hlen])]
  · intro hfail hcnd
    have hins : (waitForRun n q cond (l ++ [a])).res
        = some (.insufficient (arrVals (l ++ [a]))) := by
      rw [waitForRun_insufficient_iff n q cond l a _ hpending]
      exact ⟨hfail, hcnd, rfl⟩
    rw [hsplit, waitForRun_stable n q cond (l ++ [a]) rest _ hins, hins]
  · intro w hw
    rw [hsplit, waitForRun_stable n q cond (l ++ [a]) rest w hw]
  · intro r al h
    exact (waitForRun_ok_iff n q cond l a r al hpending).mp h
  · intro al h
    exact (waitForRun_insufficient_iff n q cond l a al hpending).mp h

/-- Witness for `C4_waitFor_quorum_race`: three operations, threshold two;
after one success, a second success resolves immediately with exactly those
two successes, and the third completion is discarded. -/
theorem C4_waitFor_quorum_race_witness :
    waitForRun 3 2 (fun b : Bool => b)
        ([.value true] ++ .value true :: [.value false])
      = ⟨[true, true], [true, true], 0, some (.ok [true, true] [true, true])⟩ :=
  (C4_waitFor_quorum_race (fun b : Bool => b) 3 2 (by decide)
      [.value true] (.value true) [.value false] (by decide) (by decide)).1
    true rfl (by decide) (by decide)

/-- The `foldr` expansion used by `makeNodes` is empty when every weight in
the (sorted) enumeration is zero. -/
theorem foldr_ranges_nil (ll : List (String × Nat)) (h : ∀ lw ∈ ll, lw.2 = 0) :
    ll.foldr (fun lw acc => ((List.range lw.2).map fun _ => lw.1) ++ acc) [] = [] := by
  induction ll with
  | nil => rfl
  | cons lw rest ih =>
    rw [List.foldr_cons, h lw (by simp), ih fun x hx => h x (by simp [hx])]
    rfl

theorem mem_insertByLoc (e x : String × Nat) (l : List (String × Nat))
    (h : x ∈ insertByLoc e l) : x = e ∨ x ∈ l := by
  induction l with
  | nil => simpa [insertByLoc] using h
  | cons f rest ih =>
    rw [insertByLoc] at h
    split at h
    · rcases List.mem_cons.mp h with h | h
      · right; simp [h]
      · rcases ih h with h | h
        · left; exact h
        · right; simp [h]
    · rcases List.mem_cons.mp h with h | h
      · left; exact h
      · right; exact h

theorem mem_sortLocs (x : String × Nat) (l : List (String × Nat))
    (h : x ∈ sortLocs l) : x ∈ l := by
  induction l with
  | nil => simp [sortLocs] at h
  | cons f rest ih =>
    rcases mem_insertByLoc f x (sortLocs rest) h with h | h
    · simp [h]
    · simp [ih h]

theorem foldl_add_eq_zero (l : List Nat) :
    ∀ acc, l.foldl (· + ·) acc = 0 → acc = 0 ∧ ∀ x ∈ l, x = 0 := by
  induction l with
  | nil => intro acc h; exact ⟨h, by simp⟩
  | cons x xs ih =>
    intro acc h
    rw [List.foldl_cons] at h
    rcases ih (acc + x) h with ⟨hax, hxs⟩
    refine ⟨by omega, ?_⟩
    intro y hy
    rcases List.mem_cons.mp hy with hy | hy
    · omega
    · exact hxs y hy

/-- C9: a topology whose weights sum to zero is accepted by the constructor
and yields an empty node list with quorum `floor(0/2) + 1 = 1`; the
prepare-phase `waitFor` then races zero promises, so no completion event can
ever arrive and its state stays pending (`res = none`) forever — it neither
resolves nor rejects, and every KV operation suspends on it. -/
theorem C9_zero_weight_topology_hangs (clusterName : String)
    (locations : List (String × Nat)) (cond : α → Bool)
    (h : (locations.map (·.2)).foldl (· + ·) 0 = 0) :
    (makeNodes clusterName locations).1.nodes = []
    ∧ (makeNodes clusterName locations).1.quorum = 1
    ∧ (waitForRun (makeNodes clusterName locations).1.nodes.length
          (makeNodes clusterName locations).1.quorum cond []).res = none := by
  have hz : ∀ lw ∈ sortLocs locations, lw.2 = 0 := by
    intro lw hlw
    exact (foldl_add_eq_zero _ 0 h).2 lw.2 (by
      exact List.mem_map.mpr ⟨lw, mem_sortLocs lw locations hlw, rfl⟩)
  have hnil : (makeNodes clusterName locations).1.nodes = [] := by
    rw [makeNodes.eq_def]
    simp only
    rw [foldr_ranges_nil _ hz]
    rfl
  refine ⟨hnil, ?_, ?_⟩
  · rw [makeNodes.eq_def]
    simp only [h]
  · rfl

/-- Witness for `C9_zero_weight_topology_hangs` at the topology
`{eeur: 0}`. -/
theorem C9_zero_weight_topology_witness :
    (makeNodes "c" [("eeur", 0)]).1.nodes = []
    ∧ (makeNodes "c" [("eeur", 0)]).1.quorum = 1
    ∧ (waitForRun (makeNodes "c" [("eeur", 0)]).1.nodes.length
          (makeNodes "c" [("eeur", 0)]).1.quorum (fun _ : Nat => true) []).res = none :=
  C9_zero_weight_topology_hangs "c" [("eeur", 0)] (fun _ : Nat => true) (by decide)

/-- C10: whenever the prepare-phase `waitFor` resolves with a quorum of at
least one, every response in the returned success list has `isPrepared`, the
list is non-empty, and the source `max` helper returns one of its elements —
so `maxPrepared.isPrepared` is true and the defensive
`throw PrepareError` branch of `guessValue` is unreachable. -/
theorem C10_max_prepared_defensive_branch_unreachable (n q : Nat) (hq : 1 ≤ q)
    (arrivals : List (Arrival (PrepareResult α))) (r al : List (PrepareResult α))
    (h : (waitForRun n q PrepareResult.isPrepared arrivals).res = some (.ok r al)) :
    r ≠ []
    ∧ (∀ x ∈ r, x.isPrepared = true)
    ∧ ∃ m, maxBySel PrepareResult.ballotOf r = some m ∧ m ∈ r
        ∧ m.isPrepared = true := by
  rcases waitForRun_ok_props n q PrepareResult.isPrepared arrivals r al h with ⟨hall, hlen⟩
  have hne : r ≠ [] := by
    intro hr
    rw [hr] at hlen
    simp at hlen
    omega
  refine ⟨hne, hall, ?_⟩
  rcases hm : maxBySel PrepareResult.ballotOf r with - | m
  · rcases r with - | ⟨x, xs⟩
    · exact absurd rfl hne
    · rw [maxBySel] at hm
      exact absurd hm (by simp)
  · exact ⟨m, rfl, maxBySel_mem PrepareResult.ballotOf r m hm,
      hall m (maxBySel_mem PrepareResult.ballotOf r m hm)⟩

/-- C3: with `ls` the state the acceptor loads for the key, `prepare`
conflicts (carrying the blocking ballot: the promised one, else the accepted
one) iff `b ≤ ls.promisedBallot` or `b ≤ ls.acceptedBallot`, while `accept`
conflicts iff `b < ls.promisedBallot` (strictly) or `b ≤ ls.acceptedBallot`
— in particular a ballot equal to the promised one (the pre-granted
reservation) with `b > ls.acceptedBallot` is accepted. -/
theorem C3_acceptor_conflict_rules (st : Storage α) (key : String) (b : BallotNumber)
    (v : Option α) (r : BallotNumber) :
    ((∃ bb, (acceptorPrepare st key b).1 = .conflict bb)
      ↔ (BallotNumberUtils.compareTo b (loadLocalState st key).promisedBallot ≤ 0
          ∨ BallotNumberUtils.compareTo b (loadLocalState st key).acceptedBallot ≤ 0))
    ∧ ((∃ bb, (acceptorAccept st key b v r).1 = .conflict bb)
      ↔ (BallotNumberUtils.compareTo b (loadLocalState st key).promisedBallot < 0
          ∨ BallotNumberUtils.compareTo b (loadLocalState st key).acceptedBallot ≤ 0))
    ∧ (BallotNumberUtils.compareTo b (loadLocalState st key).promisedBallot ≤ 0 →
        (acceptorPrepare st key b).1 = .conflict (loadLocalState st key).promisedBallot)
    ∧ (0 < BallotNumberUtils.compareTo b (loadLocalState st key).promisedBallot →
        BallotNumberUtils.compareTo b (loadLocalState st key).acceptedBallot ≤ 0 →
        (acceptorPrepare st key b).1 = .conflict (loadLocalState st key).acceptedBallot)
    ∧ (BallotNumberUtils.compareTo b (loadLocalState st key).promisedBallot = 0 →
        0 < BallotNumberUtils.compareTo b (loadLocalState st key).acceptedBallot →
        (acceptorAccept st key b v r).1 = .ok (loadLocalState st key).acceptedBallot) := by
  by_cases h1 : BallotNumberUtils.compareTo b (loadLocalState st key).promisedBallot ≤ 0 <;>
    by_cases h2 : BallotNumberUtils.compareTo b (loadLocalState st key).acceptedBallot ≤ 0 <;>
      by_cases h3 : BallotNumberUtils.compareTo b (loadLocalState st key).promisedBallot < 0 <;>
        simp [acceptorPrepare, acceptorAccept, h1, h2, h3] <;> omega

/-- Witness for `C3_acceptor_conflict_rules`: the pre-granted reservation
case — a stored promise for ballot `(1, "p")` lets an accept with that very
ballot through. -/
theorem C3_acceptor_conflict_rules_witness :
    (acceptorAccept
        ([("localstate:k", ⟨⟨1, ['p']⟩, BallotNumberUtils.zero, none⟩)] : Storage Nat)
        "k" ⟨1, ['p']⟩ (some 5) ⟨2, ['p']⟩).1
      = AcceptResult.ok
          (loadLocalState
            ([("localstate:k", ⟨⟨1, ['p']⟩, BallotNumberUtils.zero, none⟩)] : Storage Nat)
            "k").acceptedBallot :=
  (C3_acceptor_conflict_rules
      ([("localstate:k", ⟨⟨1, ['p']⟩, BallotNumberUtils.zero, none⟩)] : Storage Nat)
      "k" ⟨1, ['p']⟩ (some 5) ⟨2, ['p']⟩).2.2.2.2 (by decide) (by decide)

/-- Witness for `C10_max_prepared_defensive_branch_unreachable`: one node,
quorum one, a single prepared response. -/
theorem C10_max_prepared_witness :
    ([PrepareResult.prepared BallotNumberUtils.zero (none : Option Nat)] ≠ [])
    ∧ (∀ x ∈ [PrepareResult.prepared BallotNumberUtils.zero (none : Option Nat)],
        x.isPrepared = true)
    ∧ ∃ m, maxBySel PrepareResult.ballotOf
          [PrepareResult.prepared BallotNumberUtils.zero (none : Option Nat)] = some m
        ∧ m ∈ [PrepareResult.prepared BallotNumberUtils.zero (none : Option Nat)]
        ∧ m.isPrepared = true :=
  C10_max_prepared_defensive_branch_unreachable 1 1 (by decide)
    [.value (PrepareResult.prepared BallotNumberUtils.zero none)]
    [PrepareResult.prepared BallotNumberUtils.zero none]
    [PrepareResult.prepared BallotNumberUtils.zero none] (by decide)

/-! ## C7: failing update functions still commit, and the error taxonomy -/

/-- C7: when the guessed round state is `(ballot, curr)` and the caller's
`updateFn` throws on `curr`, `change` still broadcasts
`accept(key, ballot, curr, next(ballot))` — the current value unchanged under
the reserved ballot; if the commit phase completes it raises `UpdateError`
(only then), while a failed commit raises `CommitError` instead; and
`UpdateError` is the one code `isRetryable` rejects, with
`ConcurrentRequestError`, `PrepareError` and `CommitError` retryable. -/
theorem C7_update_error_after_commit (s : PropState α) (key : String)
    (updateFn : Option α → Except Unit α) (penv : PrepEnv α) (cenv : CommitEnv)
    (ballot : BallotNumber) (curr : Option α) (s1 : PropState α) (sent : List (Sent α))
    (hg : guessValue s key penv = .ok ballot curr s1 sent)
    (hupd : updateFn curr = .error ()) :
    (Sent.acc ballot curr (BallotNumberUtils.next ballot)
        ∈ (change s key updateFn penv cenv).2.2)
    ∧ (∀ cs, cenv = .ok cs →
        (change s key updateFn penv cenv).1 = .err .updateError)
    ∧ (∀ cs, cenv = .insufficient cs →
        (change s key updateFn penv cenv).1 = .err .commitError)
    ∧ ProposerError.isRetryable .updateError = false
    ∧ ProposerError.isRetryable .concurrentRequestError = true
    ∧ ProposerError.isRetryable .prepareError = true
    ∧ ProposerError.isRetryable .commitError = true := by
  refine ⟨?_, ?_, ?_, rfl, rfl, rfl, rfl⟩
  · cases cenv <;> simp [change, hg, hupd, commitValue]
  · rintro cs rfl
    simp [change, hg, hupd, commitValue]
  · rintro cs rfl
    simp [change, hg, hupd, commitValue]

/-- Witness for `C7_update_error_after_commit`: a fresh key, a prepare quorum
with current value `none`, a throwing update and a successful commit. -/
theorem C7_update_error_witness :
    (Sent.acc ⟨1, ['p']⟩ (none : Option Nat) (BallotNumberUtils.next ⟨1, ['p']⟩)
        ∈ (change (⟨BallotNumberUtils.fromId ['p'], []⟩ : PropState Nat) "k"
            (fun _ => .error ()) (.ok none) (.ok [])).2.2)
    ∧ (change (⟨BallotNumberUtils.fromId ['p'], []⟩ : PropState Nat) "k"
        (fun _ => .error ()) (.ok none) (.ok [])).1 = .err .updateError :=
  ⟨(C7_update_error_after_commit (⟨BallotNumberUtils.fromId ['p'], []⟩ : PropState Nat)
      "k" (fun _ => .error ()) (.ok none) (.ok []) ⟨1, ['p']⟩ none
      ⟨⟨1, ['p']⟩, [("k", .aliasLocal none)]⟩ [.prep ⟨1, ['p']⟩] rfl rfl).1,
    (C7_update_error_after_commit (⟨BallotNumberUtils.fromId ['p'], []⟩ : PropState Nat)
      "k" (fun _ => .error ()) (.ok none) (.ok []) ⟨1, ['p']⟩ none
      ⟨⟨1, ['p']⟩, [("k", .aliasLocal none)]⟩ [.prep ⟨1, ['p']⟩] rfl rfl).2.1 [] rfl⟩

/-! ## C5: ballot monotonicity and ballot reuse across broadcasts -/

/-- C5 (counterexample): on one proposer instance, a fresh round on `k1`
(ballot `(1, p)`, commit reserves `(2, p)`), then a cache-hit round on `k1`
(sends `accept` with the reserved `(2, p)` without touching the local ballot,
still at counter 1), then a fresh round on `k2` (the local ballot ticks to
`(2, p)` again) broadcast the pair `(2, p)` in two distinct accept
broadcasts (and in a prepare broadcast besides): an already-sent
`(counter, proposerId)` pair is sent again. -/
theorem C5_ballot_pair_resent_counterexample :
    2 ≤ (accBallots (runRounds (⟨BallotNumberUtils.fromId ['p'], []⟩ : PropState Nat)
        [⟨"k1", fun _ => .ok 0, .ok none, .ok []⟩,
         ⟨"k1", fun _ => .ok 0, .ok none, .ok []⟩,
         ⟨"k2", fun _ => .ok 0, .ok none, .ok []⟩]).2).count ⟨2, ['p']⟩ := by
  decide

theorem fastforwardAfter_counter_lt (b c : BallotNumber) :
    b.counter < (BallotNumberUtils.fastforwardAfter b c).counter := by
  simp only [BallotNumberUtils.fastforwardAfter, Nat.max_def]
  split <;> omega

theorem foldl_fastforwardAfter_le (l : List BallotNumber) :
    ∀ b : BallotNumber, b.counter ≤ (l.foldl BallotNumberUtils.fastforwardAfter b).counter := by
  induction l with
  | nil => intro b; exact Nat.le_refl _
  | cons c l ih =>
    intro b
    rw [List.foldl_cons]
    have h1 := fastforwardAfter_counter_lt b c
    have h2 := ih (BallotNumberUtils.fastforwardAfter b c)
    omega

theorem prepBallots_append (l l' : List (Sent α)) :
    prepBallots (l ++ l') = prepBallots l ++ prepBallots l' := by
  induction l with
  | nil => rfl
  | cons x l ih => cases x <;> simp [prepBallots, ih]

/-- Per-call ballot facts of `change`: the local counter never decreases, the
call issues at most one prepare tick, and that tick is strictly above the
counter at entry and at most the counter at exit. -/
theorem change_ballot_facts (s : PropState α) (key : String)
    (updateFn : Option α → Except Unit α) (penv : PrepEnv α) (cenv : CommitEnv) :
    s.ballot.counter ≤ (change s key updateFn penv cenv).2.1.ballot.counter
    ∧ (prepBallots (change s key updateFn penv cenv).2.2).length ≤ 1
    ∧ (∀ b ∈ prepBallots (change s key updateFn penv cenv).2.2,
        s.ballot.counter < b.counter
          ∧ b.counter ≤ (change s key updateFn penv cenv).2.1.ballot.counter) := by
  cases hcg : assocGet s.cache key with
  | some e =>
    cases e with
    | aliasLocal v =>
      cases cenv <;>
        simp [change, guessValue, hcg, commitValue, prepBallots,
          foldl_fastforwardAfter_le]
    | conc b v =>
      cases cenv <;>
        simp [change, guessValue, hcg, commitValue, prepBallots,
          foldl_fastforwardAfter_le]
  | none =>
    cases penv with
    | ok v =>
      cases cenv with
      | ok cs =>
        simp only [change, guessValue, hcg, commitValue, prepBallots, prepBallots_append]
        refine ⟨?_, by simp [prepBallots], ?_⟩
        · have := foldl_fastforwardAfter_le cs (BallotNumberUtils.inc s.ballot)
          simp [BallotNumberUtils.inc] at this ⊢
          omega
        · intro b hb
          simp [prepBallots] at hb
          subst hb
          have := foldl_fastforwardAfter_le cs (BallotNumberUtils.inc s.ballot)
          simp [BallotNumberUtils.inc] at this ⊢
          omega
      | insufficient cs =>
        simp only [change, guessValue, hcg, commitValue, prepBallots, prepBallots_append]
        refine ⟨?_, by simp [prepBallots], ?_⟩
        · have := foldl_fastforwardAfter_le cs (BallotNumberUtils.inc s.ballot)
          simp [BallotNumberUtils.inc] at this ⊢
          omega
        · intro b hb
          simp [prepBallots] at hb
          subst hb
          have := foldl_fastforwardAfter_le cs (BallotNumberUtils.inc s.ballot)
          simp [BallotNumberUtils.inc] at this ⊢
          omega
    | insufficient cs =>
      simp only [change, guessValue, hcg, prepBallots]
      refine ⟨?_, by simp [prepBallots], ?_⟩
      · have := foldl_fastforwardAfter_le cs (BallotNumberUtils.inc s.ballot)
        simp [BallotNumberUtils.inc] at this ⊢
        omega
      · intro b hb
        simp [prepBallots] at hb
        subst hb
        have := foldl_fastforwardAfter_le cs (BallotNumberUtils.inc s.ballot)
        simp [BallotNumberUtils.inc] at this ⊢
        omega

/-- C5 (amended): across any sequence of `change` calls on one proposer
instance, the local ballot's counter is non-decreasing over time, and the
prepare ticks the instance issues (the pairs consumed from the local ballot
by `inc`) are strictly increasing, hence never repeated.  The stronger
original claim — that no `(counter, proposerId)` pair is ever *sent* twice in
any broadcast — fails, because accept broadcasts re-send reserved cache
ballots that the local ballot has not caught up with (see the
counterexample). -/
theorem C5_local_ballot_monotone_and_ticks_distinct (s : PropState α)
    (rounds : List (Round α)) :
    (s.ballot.counter ≤ (runRounds s rounds).1.ballot.counter)
    ∧ List.Pairwise (fun b1 b2 : BallotNumber => b1.counter < b2.counter)
        (prepBallots (runRounds s rounds).2)
    ∧ List.Pairwise (fun b1 b2 : BallotNumber => b1 ≠ b2)
        (prepBallots (runRounds s rounds).2)
    ∧ (∀ b ∈ prepBallots (runRounds s rounds).2,
        s.ballot.counter < b.counter
          ∧ b.counter ≤ (runRounds s rounds).1.ballot.counter) := by
  induction rounds generalizing s with
  | nil =>
    simp [runRounds, prepBallots]
  | cons r rest ih =>
    rcases change_ballot_facts s r.key r.updateFn r.penv r.cenv with ⟨hle, hlen, hel⟩
    rcases ih (change s r.key r.updateFn r.penv r.cenv).2.1 with ⟨ihle, ihpw, -, ihel⟩
    have hrun : runRounds s (r :: rest)
        = ((runRounds (change s r.key r.updateFn r.penv r.cenv).2.1 rest).1,
            (change s r.key r.updateFn r.penv r.cenv).2.2
              ++ (runRounds (change s r.key r.updateFn r.penv r.cenv).2.1 rest).2) := by
      simp [runRounds]
    rw [hrun]
    simp only [prepBallots_append]
    have hpw1 : List.Pairwise (fun b1 b2 : BallotNumber => b1.counter < b2.counter)
        (prepBallots (change s r.key r.updateFn r.penv r.cenv).2.2) := by
      cases hp : prepBallots (change s r.key r.updateFn r.penv r.cenv).2.2 with
      | nil => exact List.Pairwise.nil
      | cons x xs =>
        rw [hp] at hlen
        have : xs = [] := by
          cases xs with
          | nil => rfl
          | cons y ys => simp at hlen
        rw [this]
        exact List.pairwise_singleton _ _
    have hcross : ∀ b1 ∈ prepBallots (change s r.key r.updateFn r.penv r.cenv).2.2,
        ∀ b2 ∈ prepBallots (runRounds (change s r.key r.updateFn r.penv r.cenv).2.1 rest).2,
          b1.counter < b2.counter := by
      intro b1 h1 b2 h2
      have := (hel b1 h1).2
      have := (ihel b2 h2).1
      omega
    have hpwall : List.Pairwise (fun b1 b2 : BallotNumber => b1.counter < b2.counter)
        (prepBallots (change s r.key r.updateFn r.penv r.cenv).2.2
          ++ prepBallots (runRounds (change s r.key r.updateFn r.penv r.cenv).2.1 rest).2) :=
      List.pairwise_append.mpr ⟨hpw1, ihpw, hcross⟩
    refine ⟨by omega, hpwall, ?_, ?_⟩
    · exact hpwall.imp fun {a b} hab => by
        intro hEq
        rw [hEq] at hab
        omega
    · intro b hb
      rcases List.mem_append.mp hb with hb | hb
      · have := hel b hb
        omega
      · have := ihel b hb
        omega

/-- Witness for `C5_local_ballot_monotone_and_ticks_distinct` on the
three-round trace of the counterexample: the issued prepare ticks are
strictly increasing even though a broadcast pair repeats. -/
theorem C5_local_ballot_monotone_witness :
    List.Pairwise (fun b1 b2 : BallotNumber => b1.counter < b2.counter)
      (prepBallots (runRounds (⟨BallotNumberUtils.fromId ['p'], []⟩ : PropState Nat)
        [⟨"k1", fun _ => .ok 0, .ok none, .ok []⟩,
         ⟨"k1", fun _ => .ok 0, .ok none, .ok []⟩,
         ⟨"k2", fun _ => .ok 0, .ok none, .ok []⟩]).2) :=
  (C5_local_ballot_monotone_and_ticks_distinct
    (⟨BallotNumberUtils.fromId ['p'], []⟩ : PropState Nat)
    [⟨"k1", fun _ => .ok 0, .ok none, .ok []⟩,
     ⟨"k1", fun _ => .ok 0, .ok none, .ok []⟩,
     ⟨"k2", fun _ => .ok 0, .ok none, .ok []⟩]).2.1

end DurableUtils
